import Mathlib

/-!
Shallow embedding of the term-mate intent-resolution pipeline (src/main.rs).

Rust strings are modelled as lists of Unicode scalar values (`List Char`),
matching Rust `str::chars()`.  Byte indices returned by Rust `find`/`rfind`
are modelled as character positions: every slice taken by the source happens
at a pattern-match boundary, where the two coincide.  External effects
(serde_json, the HTTP stream, spawned processes) are passed in as explicit
oracle functions or environment records; everything else is translated
directly from the source.
-/

/-- Conversion from a Lean string literal to the character-list representation. -/
def toL (s : String) : List Char := s.toList

/-- Rust `str::starts_with` for a string pattern: `pat` occurs at the start of `s`. -/
def startsWith : List Char → List Char → Bool
  | [], _ => true
  | _ :: _, [] => false
  | p :: ps, c :: cs => p == c && startsWith ps cs

/-- Rust `str::find` for a string pattern: position of the first occurrence of
`pat` in `s` (`some 0` for the empty pattern, as in Rust). -/
def findSub? (pat : List Char) : List Char → Option Nat
  | [] => if startsWith pat [] then some 0 else none
  | c :: cs => if startsWith pat (c :: cs) then some 0 else (findSub? pat cs).map (· + 1)

/-- Rust `str::contains` for a string pattern. -/
def containsSub (pat s : List Char) : Bool := (findSub? pat s).isSome

/-- ASCII lower-casing of one character.  Models Rust `str::to_lowercase` on the
ASCII code points that all deny-list patterns and claim inputs consist of
(Rust's full Unicode mapping agrees with this on ASCII). -/
def lowerChar (c : Char) : Char :=
  if 0x41 ≤ c.toNat && c.toNat ≤ 0x5a then Char.ofNat (c.toNat + 0x20) else c

/-- The Unicode White_Space set, as tested by Rust `char::is_whitespace`
(used by `str::trim`). -/
def isRustWhitespace (c : Char) : Bool :=
  let n := c.toNat
  (decide (0x9 ≤ n) && decide (n ≤ 0xd)) || n == 0x20 || n == 0x85 || n == 0xa0 ||
    n == 0x1680 || (decide (0x2000 ≤ n) && decide (n ≤ 0x200a)) || n == 0x2028 ||
    n == 0x2029 || n == 0x202f || n == 0x205f || n == 0x3000

/-- Rust `str::trim`: removes leading and trailing whitespace. -/
def rustTrim (s : List Char) : List Char :=
  ((s.dropWhile isRustWhitespace).reverse.dropWhile isRustWhitespace).reverse

/-- Splits on newline characters; auxiliary for Rust `str::lines`. -/
def splitNl : List Char → List (List Char)
  | [] => [[]]
  | c :: cs =>
    if c = '\n' then [] :: splitNl cs
    else
      match splitNl cs with
      | [] => [[c]]
      | l :: ls => (c :: l) :: ls

/-- Drops one trailing carriage return, as Rust `str::lines` does per line. -/
def stripCR (l : List Char) : List Char :=
  if l.getLast? = some '\r' then l.dropLast else l

/-- Rust `str::lines`: split on newlines, no trailing empty line for a final
newline, one trailing carriage return removed per line. -/
def rustLines (s : List Char) : List (List Char) :=
  match s with
  | [] => []
  | _ :: _ =>
    (if (splitNl s).getLast? = some [] then (splitNl s).dropLast else splitNl s).map stripCR

/-- The canonical fork-bomb literal from the deny list in `is_safe`. -/
def forkBombPat : List Char := toL ":()\x7b :|:& \x7d;:"

/-- Safety filter `is_safe` from src/main.rs: deny-list substring checks on the
lower-cased command, then a scan for characters below U+0020 other than tab
and newline. -/
def is_safe (command : List Char) : Bool :=
  let lowered := command.map lowerChar
  if containsSub (toL "rm -rf /") lowered || containsSub (toL "rm -rf *") lowered then
    false
  else if containsSub (toL "mkfs") lowered || containsSub (toL "dd if=") lowered then
    false
  else if containsSub forkBombPat lowered then
    false
  else if command.any (fun c => decide (c.toNat < 0x20) && !(c == '\t') && !(c == '\n')) then
    false
  else
    true

/-- Unicode control characters: general category Cc, that is U+0000 through
U+001F together with U+007F through U+009F. -/
def isControlChar (c : Char) : Bool :=
  decide (c.toNat < 0x20) || (decide (0x7f ≤ c.toNat) && decide (c.toNat ≤ 0x9f))

/-- Router decision record `ContextNeeds` from src/main.rs. -/
structure ContextNeeds where
  git_diff : Bool
  git_diff_staged : Bool
  git_status : Bool
  git_log : Bool
  git_branch : Bool
  file_tree : Bool
  read_files : List (List Char)
deriving DecidableEq

/-- The all-false `ContextNeeds::default()`. -/
def ContextNeeds.default : ContextNeeds :=
  ⟨false, false, false, false, false, false, []⟩

/-- The open-brace character, written by code point to keep it out of string
literals. -/
def lbrace : Char := Char.ofNat 0x7b

/-- The close-brace character. -/
def rbrace : Char := Char.ofNat 0x7d

/-- Rust `str::rfind` for a single character: position of its last occurrence. -/
def rfindIdx? (c : Char) (s : List Char) : Option Nat :=
  (s.reverse.findIdx? (fun d => d == c)).map (fun i => s.length - 1 - i)

/-- Router-response parser `parse_router_response` from src/main.rs.  The
serde_json deserialisation of `ContextNeeds` is passed in as the oracle `p`
(`none` = parse error).  The result `none` models a Rust panic: the source
takes the slice `cleaned[start..=stop]`, which panics when `start > stop + 1`. -/
def parse_router_response (p : List Char → Option ContextNeeds)
    (response : List Char) : Option ContextNeeds :=
  match p response with
  | some needs => some needs
  | none =>
    let cleaned := rustTrim response
    match cleaned.findIdx? (fun d => d == lbrace), rfindIdx? rbrace cleaned with
    | some start, some stop =>
      if start ≤ stop + 1 then
        let json_str := (cleaned.drop start).take (stop + 1 - start)
        match p json_str with
        | some needs => some needs
        | none => some ContextNeeds.default
      else
        none
    | _, _ => some ContextNeeds.default

/-- The commit-creation test from `run_interactive_with_routing`: the lowered
intent contains "commit" and none of the viewing-intent words. -/
def is_creating_commit (full_intent : List Char) : Bool :=
  let intent_lower := full_intent.map lowerChar
  containsSub (toL "commit") intent_lower
    && !containsSub (toL "show") intent_lower
    && !containsSub (toL "list") intent_lower
    && !containsSub (toL "last") intent_lower
    && !containsSub (toL "recent") intent_lower
    && !containsSub (toL "view") intent_lower
    && !containsSub (toL "history") intent_lower

/-- The deterministic router override from `run_interactive_with_routing`:
for a commit-creation intent whose router result requested neither diff nor
status, force diff, status and log. -/
def commit_override (full_intent : List Char) (needs : ContextNeeds) : ContextNeeds :=
  if is_creating_commit full_intent && !needs.git_diff && !needs.git_status then
    { needs with git_diff := true, git_status := true, git_log := true }
  else
    needs

/-- State of the streaming token consumer in `run_interactive_with_routing`:
accumulated visible text, the `first_visible_token` flag, the
`in_think_block` flag, and how many times the one-shot first-token signal
(`got_first_token.store(true)`) has been raised. -/
structure StreamState where
  result : List Char
  first_visible_token : Bool
  in_think_block : Bool
  signalCount : Nat
deriving DecidableEq

/-- The `on_token` closure from `run_interactive_with_routing`: think-block
markers toggle suppression, fragments inside a think block are dropped,
leading whitespace-only fragments are dropped, and the first visible fragment
raises the first-token signal once. -/
def on_token (st : StreamState) (token : List Char) : StreamState :=
  if containsSub (toL "<think>") token then
    { st with in_think_block := true }
  else if containsSub (toL "</think>") token then
    { st with in_think_block := false }
  else if st.in_think_block then
    st
  else
    let trimmed := rustTrim token
    if trimmed.isEmpty && st.first_visible_token then
      st
    else
      let st1 :=
        if st.first_visible_token then
          { st with signalCount := st.signalCount + 1, first_visible_token := false }
        else st
      { st1 with result := st1.result ++ token }

/-- Initial consumer state: empty output, waiting for the first visible token,
outside any think block. -/
def initStream : StreamState := ⟨[], true, false, 0⟩

/-- Folds the token consumer over a fragment sequence. -/
def runTokens (tokens : List (List Char)) : StreamState :=
  tokens.foldl on_token initStream

/-- The fence marker for markdown code blocks. -/
def fencePat : List Char := toL "```"

/-- The code-block extraction step of `clean_command`: if the text contains a
fence, keep the content between the first pair of fences minus the language-tag
line; if there is no closing fence, keep the text unchanged. -/
def extractFence (cmd : List Char) : List Char :=
  match findSub? fencePat cmd with
  | none => cmd
  | some start =>
    let after := cmd.drop (start + 3)
    let contentStart :=
      match after.findIdx? (fun c => c == '\n') with
      | some i => i + 1
      | none => 0
    let content := after.drop contentStart
    match findSub? fencePat content with
    | some e => content.take e
    | none => cmd

/-- Command sanitizer `clean_command` from src/main.rs: extract a fenced code
block if present, strip inline backticks, then return the first line whose
trim is non-empty (trimmed, carriage returns removed); otherwise the trim of
the remainder. -/
def clean_command (raw : List Char) : List Char :=
  let cmd := extractFence raw
  let cmd := cmd.filter (fun c => !(c == '`'))
  match (rustLines cmd).find? (fun l => !(rustTrim l).isEmpty) with
  | some l => (rustTrim l).filter (fun c => !(c == '\r'))
  | none => rustTrim cmd

/-- Externally visible actions the tail of `main` can take with a command. -/
inductive MainAction where
  | print : List Char → MainAction
  | copy : List Char → MainAction
  | run : List Char → MainAction
deriving DecidableEq

/-- The command text an action carries. -/
def MainAction.cmd : MainAction → List Char
  | .print c => c
  | .copy c => c
  | .run c => c

/-- Result of the tail of `main`: actions taken and the process exit code. -/
structure MainOutcome where
  actions : List MainAction
  exitCode : Nat
deriving DecidableEq

/-- The tail of `main` in src/main.rs, from the generation result onward:
generation failure exits with code 3; an empty or unsafe sanitized command
exits with code 2 before any print, copy or run; otherwise the command is
printed (quick or non-tty mode without auto-confirm) or copied to the
clipboard and, after the re-applied safety check, run when auto-confirmed or
when the user confirms with an empty line. -/
def main_tail (gen : Except Unit (List Char))
    (quick auto tty enter : Bool) : MainOutcome :=
  match gen with
  | Except.error _ => ⟨[], 3⟩
  | Except.ok raw =>
    let command := clean_command raw
    if command.isEmpty || !is_safe command then
      ⟨[], 2⟩
    else if (quick || !tty) && !auto then
      ⟨[MainAction.print command], 0⟩
    else
      ⟨MainAction.copy command ::
        (if is_safe command then
          (if auto then [MainAction.run command]
           else if enter then [MainAction.run command]
           else [])
         else []), 0⟩

/-- One parsed frame of the Ollama streaming protocol. -/
structure OllamaResponse where
  response : List Char
  done : Bool

/-- Failure modes of the streaming generator: a reqwest transport error, or an
io error from decoding a line of the byte stream. -/
inductive StreamErr where
  | transport
  | lineDecode
deriving DecidableEq

/-- One line of a received chunk: either text, or an io decoding error
(invalid UTF-8), as produced by `chunk.lines()`. -/
abbrev LineItem := Except Unit (List Char)

/-- One event of the byte stream: a decoded chunk of lines, or a transport
error from `stream.next()`. -/
abbrev ChunkItem := Except Unit (List LineItem)

/-- The inner `for line in chunk.lines()` loop of `generate_ollama_streaming`:
a line decoding error propagates, empty lines are skipped, lines that fail the
serde_json parse `p` are skipped, parsed frames append their text, and a frame
with `done` set breaks out of the chunk. -/
def procLines (p : List Char → Option OllamaResponse) :
    List LineItem → List Char → Except StreamErr (List Char)
  | [], acc => Except.ok acc
  | Except.error _ :: _, _ => Except.error StreamErr.lineDecode
  | Except.ok line :: rest, acc =>
    if line.isEmpty then procLines p rest acc
    else
      match p line with
      | some r =>
        if r.done then Except.ok (acc ++ r.response)
        else procLines p rest (acc ++ r.response)
      | none => procLines p rest acc

/-- The outer `while let Some(item) = stream.next().await` loop: a transport
error propagates, otherwise each chunk's lines are processed in order. -/
def procChunks (p : List Char → Option OllamaResponse) :
    List ChunkItem → List Char → Except StreamErr (List Char)
  | [], acc => Except.ok acc
  | Except.error _ :: _, _ => Except.error StreamErr.transport
  | Except.ok lines :: rest, acc =>
    match procLines p lines acc with
    | Except.ok acc2 => procChunks p rest acc2
    | Except.error e => Except.error e

/-- Streaming generator `generate_ollama_streaming` from src/main.rs over an
abstract connection: `conn` is the result of `send()` (a transport error or
the list of streamed chunks) and `p` is the serde_json frame parser.  Returns
the accumulated `full_response`. -/
def generate_ollama_streaming (p : List Char → Option OllamaResponse)
    (conn : Except Unit (List ChunkItem)) : Except StreamErr (List Char) :=
  match conn with
  | Except.error _ => Except.error StreamErr.transport
  | Except.ok chunks => procChunks p chunks []


/-- Results of the external collector processes, as `run_command` or
`tokio::fs::read_to_string` return them: `none` is a failed, non-zero-status,
non-UTF-8 or empty-output call. -/
structure GatherEnv where
  treeCmd : Option (List Char)
  findCmd : Option (List Char)
  isRepo : Bool
  statusOut : Option (List Char)
  diffOut : Option (List Char)
  diffStagedOut : Option (List Char)
  logOut : Option (List Char)
  branchOut : Option (List Char)
  fileOut : List Char → Option (List Char)

/-- A labeled context section, `=== label ===` followed by the content. -/
def section_header (label : String) (content : List Char) : List Char :=
  toL ("=== " ++ label ++ " ===\n") ++ content

/-- `read_file_head` from src/main.rs: a successfully read file becomes a
labeled section with its content truncated to 16000 characters. -/
def read_file_head (env : GatherEnv) (path : List Char) : Option (List Char) :=
  (env.fileOut path).map
    (fun content => toL "=== " ++ path ++ toL " ===\n" ++ content.take 16000)

/-- Joins strings with a separator, as Rust `Vec::join`. -/
def joinSep (sep : List Char) : List (List Char) → List Char
  | [] => []
  | [x] => x
  | x :: xs => x ++ sep ++ joinSep sep xs

/-- Context aggregator `gather_context` from src/main.rs: tasks are spawned in
source order (file tree; then, inside a git repository, status, unstaged diff,
staged diff, log, branches; then the requested files), `join_all` preserves
that order, and the successful results are joined with blank lines. -/
def gather_context (env : GatherEnv) (needs : ContextNeeds) : List Char :=
  let tasks : List (Option (List Char)) :=
    (if needs.file_tree then
      [(env.treeCmd.orElse (fun _ => env.findCmd)).map
        (fun t => section_header "File Tree" (t.take 4000))]
     else [])
    ++ (if env.isRepo then
         (if needs.git_status then
           [env.statusOut.map (section_header "Git Status")] else [])
         ++ (if needs.git_diff then
           [env.diffOut.map (fun s => section_header "Git Diff (unstaged)" (s.take 6000))]
          else [])
         ++ (if needs.git_diff_staged then
           [env.diffStagedOut.map (fun s => section_header "Git Diff (staged)" (s.take 6000))]
          else [])
         ++ (if needs.git_log then
           [env.logOut.map (section_header "Recent Commits")] else [])
         ++ (if needs.git_branch then
           [env.branchOut.map (section_header "Branches")] else [])
        else [])
    ++ needs.read_files.map (read_file_head env)
  joinSep (toL "\n\n") (tasks.filterMap id)

/-- The aggregate order stated section by section (the amended C7 order): the
file tree section, then git status, unstaged diff, staged diff, recent
commits, branches, then the requested files in request order; absent or failed
sections contribute nothing. -/
def gather_context_sections (env : GatherEnv) (needs : ContextNeeds) : List Char :=
  let sections : List (Option (List Char)) :=
    [if needs.file_tree then
      (env.treeCmd.orElse (fun _ => env.findCmd)).map
        (fun t => section_header "File Tree" (t.take 4000))
     else none,
     if env.isRepo && needs.git_status then
      env.statusOut.map (section_header "Git Status") else none,
     if env.isRepo && needs.git_diff then
      env.diffOut.map (fun s => section_header "Git Diff (unstaged)" (s.take 6000))
     else none,
     if env.isRepo && needs.git_diff_staged then
      env.diffStagedOut.map (fun s => section_header "Git Diff (staged)" (s.take 6000))
     else none,
     if env.isRepo && needs.git_log then
      env.logOut.map (section_header "Recent Commits") else none,
     if env.isRepo && needs.git_branch then
      env.branchOut.map (section_header "Branches") else none]
    ++ needs.read_files.map (read_file_head env)
  joinSep (toL "\n\n") (sections.filterMap id)

/-- A serde_json oracle that fails on every input; it is only ever applied to
inputs that are not valid JSON. -/
def parseFail : List Char → Option ContextNeeds := fun _ => none

/-- A serde_json frame oracle that fails on every input; it is only ever
applied to inputs that are not valid JSON. -/
def jsonFail : List Char → Option OllamaResponse := fun _ => none

/-- A concrete collector environment inside a git repository where status
returns "S" and the unstaged diff returns "D". -/
def env0 : GatherEnv :=
  { treeCmd := none, findCmd := none, isRepo := true,
    statusOut := some (toL "S"), diffOut := some (toL "D"),
    diffStagedOut := none, logOut := none, branchOut := none,
    fileOut := fun _ => none }

/-- The needs record requesting exactly the unstaged diff and the status. -/
def needs0 : ContextNeeds :=
  { git_diff := true, git_diff_staged := false, git_status := true,
    git_log := false, git_branch := false, file_tree := false, read_files := [] }

/-- First-non-blank-line selection stated the way the amended C3 reads: walk
the lines in order, skip every line whose trim is empty, return the first
remaining line trimmed with carriage returns removed, and the empty string
when no line remains. -/
def selectLine : List (List Char) → List Char
  | [] => []
  | l :: ls =>
    if (rustTrim l).isEmpty then selectLine ls
    else (rustTrim l).filter (fun c => !(c == '\r'))

/-- The sanitizer restated per the amended C3 for fence-free input: strip
backticks, then select the first non-blank line. -/
def clean_spec_nofence (raw : List Char) : List Char :=
  selectLine (rustLines (raw.filter (fun c => !(c == '`'))))

-- ===========================================================================
-- Theorems
-- ===========================================================================

/-- C1 counterexample: the command "echo " followed by DEL (U+007F) contains a
control character that is neither tab nor newline, yet `is_safe` accepts it —
the filter only rejects code points below U+0020. -/
theorem is_safe_allows_delete_char :
    (toL "echo \x7f").contains (Char.ofNat 0x7f) = true
  ∧ isControlChar (Char.ofNat 0x7f) = true
  ∧ (Char.ofNat 0x7f == '\t') = false
  ∧ (Char.ofNat 0x7f == '\n') = false
  ∧ is_safe (toL "echo \x7f") = true := by
  decide

/-- C1 (amended): `is_safe` rejects the four catastrophic examples, accepts
"git status", and rejects every command containing a character with code point
below U+0020 other than tab or newline; DEL and the C1 control range are not
covered by the filter. -/
theorem is_safe_examples_and_c0_controls (cmd : List Char) (c : Char)
    (hc : c ∈ cmd) (hlt : c.toNat < 0x20)
    (ht : (c == '\t') = false) (hn : (c == '\n') = false) :
    is_safe cmd = false
  ∧ is_safe (toL "rm -rf /") = false
  ∧ is_safe (toL "mkfs.ext4 /dev/sda") = false
  ∧ is_safe forkBombPat = false
  ∧ is_safe (toL "dd if=/dev/zero of=/dev/sda") = false
  ∧ is_safe (toL "git status") = true := by
  refine ⟨?_, by decide, by decide, by decide, by decide, by decide⟩
  have hany :
      cmd.any (fun c => decide (c.toNat < 0x20) && !(c == '\t') && !(c == '\n')) = true := by
    refine List.any_eq_true.mpr ⟨c, hc, ?_⟩
    simp [hlt, ht, hn]
  simp [is_safe, hany]

/-- Witness for C1: the amended theorem applied to the one-character command
consisting of the escape character U+001B. -/
theorem is_safe_c0_controls_witness :
    is_safe [Char.ofNat 27] = false :=
  (is_safe_examples_and_c0_controls [Char.ofNat 27] (Char.ofNat 27)
    (by decide) (by decide) (by decide) (by decide)).1

/-- C10: the deny check of `is_safe` is a case-insensitive substring match over
the whole command; every command whose lower-casing contains one of the five
deny patterns anywhere is rejected, including a benign quoted argument such as
echo "mkfs", and "rm -rf *" is rejected as well. -/
theorem is_safe_substring_denylist (cmd : List Char)
    (h : (containsSub (toL "rm -rf /") (cmd.map lowerChar)
       || containsSub (toL "rm -rf *") (cmd.map lowerChar)
       || containsSub (toL "mkfs") (cmd.map lowerChar)
       || containsSub (toL "dd if=") (cmd.map lowerChar)
       || containsSub forkBombPat (cmd.map lowerChar)) = true) :
    is_safe cmd = false
  ∧ is_safe (toL "echo \"mkfs\"") = false
  ∧ is_safe (toL "rm -rf *") = false := by
  refine ⟨?_, by decide, by decide⟩
  simp only [Bool.or_eq_true] at h
  rcases h with ((((h | h) | h) | h) | h) <;> simp [is_safe, h]

/-- Witness for C10: a deny pattern inside a quoted argument is enough to
reject the command. -/
theorem is_safe_substring_denylist_witness :
    is_safe (toL "echo \"mkfs\"") = false :=
  (is_safe_substring_denylist (toL "echo \"mkfs\"") (by decide)).2.1

/-- C4 (code bug): `parse_router_response` panics on a response whose first
open brace occurs after its last close brace — the source takes the slice
`cleaned[start..=stop]` with `start > stop + 1`.  Here `none` models the Rust
panic, and the hypothesis records that serde_json rejects the input (it is not
valid JSON). -/
theorem parse_router_response_panics (p : List Char → Option ContextNeeds)
    (hp : p (toL "\x7d \x7b") = none) :
    parse_router_response p (toL "\x7d \x7b") = none := by
  unfold parse_router_response
  rw [hp]
  rfl


/-- Witness for C4: the panic theorem applied to the concrete failing oracle. -/
theorem parse_router_response_panics_witness :
    parse_router_response parseFail (toL "\x7d \x7b") = none :=
  parse_router_response_panics parseFail rfl

/-- C5: for the fragment sequence ["<think>", "reasoning text", "</think>",
"real answer"], the accumulated visible output is exactly "real answer", and
the first-visible-token signal fires exactly once, at the final fragment
(zero times over the first three fragments). -/
theorem think_block_stream_filter :
    (runTokens [toL "<think>", toL "reasoning text", toL "</think>", toL "real answer"]).result
      = toL "real answer"
  ∧ (runTokens [toL "<think>", toL "reasoning text", toL "</think>", toL "real answer"]).signalCount
      = 1
  ∧ (runTokens [toL "<think>", toL "reasoning text", toL "</think>"]).signalCount = 0 := by
  decide

/-- C6: for an intent whose lowering contains "commit" and none of the six
viewing-intent words, and a router result with neither diff nor status set,
the override forces git_diff, git_status and git_log to true and leaves every
other field unchanged. -/
theorem commit_override_forces_git_context (intent : List Char) (needs : ContextNeeds)
    (hcommit : containsSub (toL "commit") (intent.map lowerChar) = true)
    (h1 : containsSub (toL "show") (intent.map lowerChar) = false)
    (h2 : containsSub (toL "list") (intent.map lowerChar) = false)
    (h3 : containsSub (toL "last") (intent.map lowerChar) = false)
    (h4 : containsSub (toL "recent") (intent.map lowerChar) = false)
    (h5 : containsSub (toL "view") (intent.map lowerChar) = false)
    (h6 : containsSub (toL "history") (intent.map lowerChar) = false)
    (hdiff : needs.git_diff = false) (hstatus : needs.git_status = false) :
    commit_override intent needs
      = { needs with git_diff := true, git_status := true, git_log := true } := by
  simp [commit_override, is_creating_commit, hcommit, h1, h2, h3, h4, h5, h6, hdiff, hstatus]

/-- Witness for C6: the override fires on the intent "commit my changes" with
the default router result. -/
theorem commit_override_forces_git_context_witness :
    commit_override (toL "commit my changes") ContextNeeds.default
      = { ContextNeeds.default with git_diff := true, git_status := true, git_log := true } :=
  commit_override_forces_git_context (toL "commit my changes") ContextNeeds.default
    (by decide) (by decide) (by decide) (by decide) (by decide) (by decide) (by decide)
    rfl rfl

/-- C2: a generation failure exits with code 3 and takes no action; an empty or
unsafe sanitized command exits with the distinct code 2 and is never printed,
copied or run; and every command appearing in any taken action (print, copy or
run) has passed `is_safe` and is non-empty. -/
theorem main_tail_guards (gen : Except Unit (List Char)) (quick auto tty enter : Bool) :
    (∀ raw, gen = Except.ok raw →
      ((clean_command raw).isEmpty || !is_safe (clean_command raw)) = true →
      main_tail gen quick auto tty enter = ⟨[], 2⟩)
  ∧ (∀ a ∈ (main_tail gen quick auto tty enter).actions,
      is_safe a.cmd = true ∧ a.cmd.isEmpty = false)
  ∧ (∀ e, gen = Except.error e → main_tail gen quick auto tty enter = ⟨[], 3⟩) := by
  refine ⟨?_, ?_, ?_⟩
  · intro raw hg hbad
    subst hg
    simp [main_tail, hbad]
  · intro a ha
    cases gen with
    | error e => simp [main_tail] at ha
    | ok raw =>
      by_cases hbad : ((clean_command raw).isEmpty || !is_safe (clean_command raw)) = true
      · simp [main_tail, hbad] at ha
      · rw [Bool.not_eq_true] at hbad
        have he : (clean_command raw).isEmpty = false := by
          cases h : (clean_command raw).isEmpty with
          | false => rfl
          | true => rw [h] at hbad; simp at hbad
        have hsafe : is_safe (clean_command raw) = true := by
          cases h : is_safe (clean_command raw) with
          | true => rfl
          | false => rw [h] at hbad; simp [he] at hbad
        cases quick <;> cases auto <;> cases tty <;> cases enter <;>
          simp [main_tail, he, hsafe] at ha <;>
          first
            | (subst ha; exact ⟨hsafe, he⟩)
            | (rcases ha with rfl | rfl <;> exact ⟨hsafe, he⟩)
  · intro e hg
    subst hg
    simp [main_tail]

/-- Witness for C2: the unsafe generation output "rm -rf /" is rejected with
exit code 2 and no action. -/
theorem main_tail_guards_witness :
    main_tail (Except.ok (toL "rm -rf /")) true false true false = ⟨[], 2⟩ :=
  (main_tail_guards (Except.ok (toL "rm -rf /")) true false true false).1
    (toL "rm -rf /") rfl (by decide)

/-- C8 counterexample: a malformed frame received before any valid frame does
not fail the stream — the generator skips it and returns an empty success, so
no ProtocolError exists in the code. -/
theorem streaming_skips_initial_malformed_frame :
    generate_ollama_streaming jsonFail
        (Except.ok [Except.ok [Except.ok (toL "not json")]])
      = Except.ok [] := by
  rfl

/-- C8 (amended): a line that fails the JSON frame parse is skipped and is
never fatal, regardless of whether a valid frame was seen before it; a
connection failure or a mid-stream transport error yields the transport
error.  No ProtocolError path exists. -/
theorem streaming_malformed_skip_and_transport
    (p : List Char → Option OllamaResponse) (line : List Char)
    (rest : List LineItem) (acc : List Char) (chunks : List ChunkItem)
    (hne : line.isEmpty = false) (hp : p line = none) :
    procLines p (Except.ok line :: rest) acc = procLines p rest acc
  ∧ generate_ollama_streaming p (Except.error ()) = Except.error StreamErr.transport
  ∧ procChunks p (Except.error () :: chunks) acc = Except.error StreamErr.transport := by
  refine ⟨?_, rfl, rfl⟩
  simp [procLines, hne, hp]

/-- Witness for C8: skipping a concrete malformed line with the concrete
failing frame parser. -/
theorem streaming_malformed_skip_and_transport_witness :
    procLines jsonFail [Except.ok (toL "x")] [] = procLines jsonFail [] [] :=
  (streaming_malformed_skip_and_transport jsonFail (toL "x") [] [] []
    (by decide) rfl).1



/-- C7 counterexample: with both diff and status requested, the aggregate puts
the Git Status section before the Git Diff section — not the
ContextNeeds flag-declaration order (git_diff first) that the claim states. -/
theorem gather_context_status_before_diff :
    gather_context env0 needs0
      = toL "=== Git Status ===\nS\n\n=== Git Diff (unstaged) ===\nD"
  ∧ decide (gather_context env0 needs0
      = toL "=== Git Diff (unstaged) ===\nD\n\n=== Git Status ===\nS") = false := by
  exact ⟨by decide, by decide⟩

/-- Filtering the defined values out of a cons is appending the head's
contents. -/
theorem filterMap_id_cons {α : Type} (x : Option α) (l : List (Option α)) :
    List.filterMap id (x :: l) = x.toList ++ List.filterMap id l := by
  cases x <;> simp

/-- C7 (amended): the aggregate lists its sections in the fixed deterministic
spawn order — file tree first, then the git sections in the order status,
unstaged diff, staged diff, log, branches, then the requested files in request
order — and when every flag is false and no files are requested the aggregate
is the empty block. -/
theorem gather_context_order_and_empty (env : GatherEnv) (needs : ContextNeeds) :
    gather_context env needs = gather_context_sections env needs
  ∧ ((!needs.git_diff && !needs.git_diff_staged && !needs.git_status && !needs.git_log
      && !needs.git_branch && !needs.file_tree && needs.read_files.isEmpty) = true →
      gather_context env needs = []) := by
  obtain ⟨tc, fc, repo, so, dfo, dso, lo, bo, fo⟩ := env
  obtain ⟨d, ds, st, lg, br, ft, rf⟩ := needs
  constructor
  · cases d <;> cases ds <;> cases st <;> cases lg <;> cases br <;> cases ft <;> cases repo <;>
      simp [gather_context, gather_context_sections, List.filterMap_append,
        filterMap_id_cons, List.append_assoc]
  · intro h
    simp only [Bool.and_eq_true, Bool.not_eq_true', List.isEmpty_iff] at h
    obtain ⟨⟨⟨⟨⟨⟨h1, h2⟩, h3⟩, h4⟩, h5⟩, h6⟩, h7⟩ := h
    subst h1; subst h2; subst h3; subst h4; subst h5; subst h6; subst h7
    simp [gather_context, joinSep]

/-- Witness for C7: the aggregate for the all-false needs record is empty. -/
theorem gather_context_order_and_empty_witness :
    gather_context env0 ContextNeeds.default = [] :=
  (gather_context_order_and_empty env0 ContextNeeds.default).2 (by decide)

/-- C3 counterexample: for the fence-free input "The command is:\ngit status",
the sanitizer returns the prose first line even though the later line starts
with the alleged allow-list name "git" and the first line starts with the
alleged prose marker "the" — no priority selection exists in the code. -/
theorem clean_command_prose_line_wins :
    clean_command (toL "The command is:\ngit status") = toL "The command is:"
  ∧ startsWith (toL "git") (toL "git status") = true
  ∧ startsWith (toL "the") ((toL "The command is:").map lowerChar) = true
  ∧ decide (clean_command (toL "The command is:\ngit status") = toL "git status")
      = false := by
  exact ⟨by decide, by decide, by decide, by decide⟩

/-- The newline splitter never produces an empty part list. -/
theorem splitNl_ne_nil (s : List Char) : splitNl s ≠ [] := by
  induction s with
  | nil => simp [splitNl]
  | cons c cs ih =>
    by_cases hc : c = '\n'
    · simp [splitNl, hc]
    · simp only [splitNl, if_neg hc]
      cases h : splitNl cs <;> simp

/-- Every character of a string is a newline or belongs to one of its parts. -/
theorem mem_splitNl {c : Char} {s : List Char} (h : c ∈ s) :
    c = '\n' ∨ ∃ l, l ∈ splitNl s ∧ c ∈ l := by
  induction s with
  | nil => simp at h
  | cons a cs ih =>
    by_cases ha : a = '\n'
    · subst ha
      rcases List.mem_cons.mp h with rfl | h2
      · exact Or.inl rfl
      · rcases ih h2 with h3 | ⟨l, hl, hcl⟩
        · exact Or.inl h3
        · exact Or.inr ⟨l, by simp [splitNl, hl], hcl⟩
    · simp only [splitNl, if_neg ha]
      rcases List.mem_cons.mp h with rfl | h2
      · right
        cases hsp : splitNl cs with
        | nil => exact ⟨[c], by simp, by simp⟩
        | cons l ls => exact ⟨c :: l, by simp, by simp⟩
      · rcases ih h2 with h3 | ⟨l, hl, hcl⟩
        · exact Or.inl h3
        · right
          cases hsp : splitNl cs with
          | nil => rw [hsp] at hl; simp at hl
          | cons l0 ls =>
            rw [hsp] at hl
            rcases List.mem_cons.mp hl with rfl | hl2
            · exact ⟨a :: l, by simp, List.mem_cons_of_mem a hcl⟩
            · exact ⟨l, List.mem_cons_of_mem _ hl2, hcl⟩

/-- No part produced by the newline splitter contains a newline. -/
theorem splitNl_no_nl {s : List Char} : ∀ l ∈ splitNl s, '\n' ∉ l := by
  induction s with
  | nil => intro l hl; simp [splitNl] at hl; subst hl; simp
  | cons a cs ih =>
    intro l hl
    by_cases ha : a = '\n'
    · subst ha
      simp only [splitNl, if_pos rfl] at hl
      rcases List.mem_cons.mp hl with rfl | hl2
      · simp
      · exact ih l hl2
    · simp only [splitNl, if_neg ha] at hl
      cases hsp : splitNl cs with
      | nil => rw [hsp] at hl; simp at hl; subst hl; simp [Ne.symm ha]
      | cons l0 ls =>
        rw [hsp] at hl
        rcases List.mem_cons.mp hl with rfl | hl2
        · intro hmem
          rcases List.mem_cons.mp hmem with h | h
          · exact ha h.symm
          · exact ih l0 (by rw [hsp]; exact List.mem_cons_self l0 ls) h
        · exact ih l (by rw [hsp]; exact List.mem_cons_of_mem _ hl2)

/-- Membership survives undoing the carriage-return strip. -/
theorem mem_of_mem_stripCR {c : Char} {l : List Char} (h : c ∈ stripCR l) : c ∈ l := by
  unfold stripCR at h
  split at h
  · exact (List.dropLast_sublist l).subset h
  · exact h

/-- A character of a line is in its carriage-return-stripped form or is the
stripped carriage return itself. -/
theorem mem_stripCR_or {c : Char} {l : List Char} (h : c ∈ l) :
    c ∈ stripCR l ∨ c = '\r' := by
  unfold stripCR
  split
  · rename_i hlast
    have hsplit := List.dropLast_append_getLast? '\r' (Option.mem_def.mpr hlast)
    rw [← hsplit] at h
    rcases List.mem_append.mp h with h1 | h2
    · exact Or.inl h1
    · simp at h2; exact Or.inr h2
  · exact Or.inl h

/-- Trimming an all-whitespace string gives the empty string. -/
theorem rustTrim_eq_nil_of_all {l : List Char}
    (h : ∀ c ∈ l, isRustWhitespace c = true) : rustTrim l = [] := by
  unfold rustTrim
  rw [List.dropWhile_eq_nil_iff.mpr h]
  simp

/-- A string whose trim is empty is all whitespace. -/
theorem all_ws_of_rustTrim_eq_nil {l : List Char} (h : rustTrim l = []) :
    ∀ c ∈ l, isRustWhitespace c = true := by
  unfold rustTrim at h
  rw [List.reverse_eq_nil_iff, List.dropWhile_eq_nil_iff] at h
  intro c hc
  rw [← List.takeWhile_append_dropWhile (p := isRustWhitespace) (l := l)] at hc
  rcases List.mem_append.mp hc with h1 | h2
  · exact List.mem_takeWhile_imp h1
  · exact h c (List.mem_reverse.mpr h2)

/-- The trim of a string splits it: the string is its trimmed left-drop
followed by the trailing whitespace that was removed. -/
theorem dropWhile_eq_rustTrim_append (l : List Char) :
    l.dropWhile isRustWhitespace
      = rustTrim l
        ++ ((l.dropWhile isRustWhitespace).reverse.takeWhile isRustWhitespace).reverse := by
  unfold rustTrim
  rw [← List.reverse_append, List.takeWhile_append_dropWhile, List.reverse_reverse]

/-- The head of a trimmed string is not whitespace. -/
theorem rustTrim_head_not_ws {l : List Char} {c : Char}
    (h : (rustTrim l).head? = some c) : isRustWhitespace c = false := by
  have hsplit := dropWhile_eq_rustTrim_append l
  cases hr : rustTrim l with
  | nil => rw [hr] at h; simp at h
  | cons a r =>
    rw [hr] at h hsplit
    simp only [List.head?_cons, Option.some.injEq] at h
    have hhead : (l.dropWhile isRustWhitespace).head? = some c := by
      rw [hsplit, List.cons_append]
      simp [h]
    have h2 := List.head?_dropWhile_not isRustWhitespace l
    rw [hhead] at h2
    exact h2

/-- The last character of a trimmed string is not whitespace. -/
theorem rustTrim_getLast_not_ws {l : List Char} {c : Char}
    (h : (rustTrim l).getLast? = some c) : isRustWhitespace c = false := by
  unfold rustTrim at h
  rw [List.getLast?_reverse] at h
  have h2 := List.head?_dropWhile_not isRustWhitespace
    ((l.dropWhile isRustWhitespace).reverse)
  rw [h] at h2
  exact h2

/-- A string whose ends are not whitespace is unchanged by trimming. -/
theorem rustTrim_eq_self {l : List Char}
    (hh : ∀ c, l.head? = some c → isRustWhitespace c = false)
    (hl : ∀ c, l.getLast? = some c → isRustWhitespace c = false) :
    rustTrim l = l := by
  cases l with
  | nil => rfl
  | cons a t =>
    unfold rustTrim
    have h1 : (a :: t).dropWhile isRustWhitespace = a :: t :=
      List.dropWhile_cons_of_neg (by simp [hh a rfl])
    rw [h1]
    have h2 : (a :: t).reverse.dropWhile isRustWhitespace = (a :: t).reverse := by
      cases hr : (a :: t).reverse with
      | nil => simp
      | cons b r =>
        apply List.dropWhile_cons_of_neg
        have hb : (a :: t).getLast? = some b := by
          rw [← List.head?_reverse, hr]; rfl
        simp [hl b hb]
    rw [h2, List.reverse_reverse]

/-- Characters of a trimmed string come from the original. -/
theorem mem_of_mem_rustTrim {c : Char} {l : List Char} (h : c ∈ rustTrim l) :
    c ∈ l := by
  unfold rustTrim at h
  rw [List.mem_reverse] at h
  have h2 := (List.dropWhile_sublist isRustWhitespace).subset h
  rw [List.mem_reverse] at h2
  exact (List.dropWhile_sublist isRustWhitespace).subset h2

/-- Every part of the splitter lands in the Rust line list (after the
carriage-return strip), except for the dropped trailing empty part. -/
theorem stripCR_mem_rustLines {s : List Char} (hs : s ≠ []) {l : List Char}
    (hl : l ∈ splitNl s) : stripCR l ∈ rustLines s ∨ l = [] := by
  cases s with
  | nil => exact absurd rfl hs
  | cons a t =>
    simp only [rustLines]
    by_cases hlast : (splitNl (a :: t)).getLast? = some []
    · have hsplit := List.dropLast_append_getLast? [] (Option.mem_def.mpr hlast)
      rw [← hsplit] at hl
      rcases List.mem_append.mp hl with h1 | h2
      · left
        rw [if_pos hlast]
        exact List.mem_map_of_mem stripCR h1
      · right; simpa using h2
    · left
      rw [if_neg hlast]
      exact List.mem_map_of_mem stripCR hl

/-- No Rust line contains a newline. -/
theorem no_nl_mem_rustLines {s l : List Char} (hl : l ∈ rustLines s) :
    '\n' ∉ l := by
  cases s with
  | nil => simp [rustLines] at hl
  | cons a t =>
    simp only [rustLines] at hl
    rw [List.mem_map] at hl
    obtain ⟨l0, hl0, rfl⟩ := hl
    have hl0' : l0 ∈ splitNl (a :: t) := by
      by_cases hlast : (splitNl (a :: t)).getLast? = some []
      · rw [if_pos hlast] at hl0
        exact (List.dropLast_sublist _).subset hl0
      · rw [if_neg hlast] at hl0; exact hl0
    intro hmem
    exact splitNl_no_nl _ hl0' (mem_of_mem_stripCR hmem)

/-- If every Rust line of a string trims to empty, the string is all
whitespace. -/
theorem all_ws_of_lines_trim_nil {s : List Char}
    (h : ∀ l ∈ rustLines s, rustTrim l = []) :
    ∀ c ∈ s, isRustWhitespace c = true := by
  intro c hc
  have hs : s ≠ [] := by intro he; rw [he] at hc; simp at hc
  rcases mem_splitNl hc with rfl | ⟨l, hl, hcl⟩
  · decide
  · rcases stripCR_mem_rustLines hs hl with hmem | rfl
    · have hws := all_ws_of_rustTrim_eq_nil (h _ hmem)
      rcases mem_stripCR_or hcl with h1 | rfl
      · exact hws c h1
      · decide
    · simp at hcl

/-- Filtering preserves a head that passes the filter. -/
theorem filter_head?_of_head? {p : Char → Bool} {m : List Char} {c : Char}
    (h : m.head? = some c) (hp : p c = true) : (m.filter p).head? = some c := by
  cases m with
  | nil => simp at h
  | cons a r =>
    simp only [List.head?_cons, Option.some.injEq] at h
    subst h
    rw [List.filter_cons_of_pos hp]
    rfl

/-- Filtering preserves a last element that passes the filter. -/
theorem filter_getLast?_of_getLast? {p : Char → Bool} {m : List Char} {c : Char}
    (h : m.getLast? = some c) (hp : p c = true) :
    (m.filter p).getLast? = some c := by
  rw [← List.head?_reverse] at h
  rw [← List.head?_reverse, ← List.filter_reverse]
  exact filter_head?_of_head? h hp

/-- A non-whitespace character is not a carriage return. -/
theorem not_cr_of_not_ws {c : Char} (h : isRustWhitespace c = false) :
    (!(c == '\r')) = true := by
  cases hc : c == '\r' with
  | false => rfl
  | true =>
    have : c = '\r' := by simpa using hc
    subst this
    exact absurd h (by decide)

/-- Unfolding equation for the sanitizer with its local bindings substituted. -/
theorem clean_command_eq (raw : List Char) :
    clean_command raw
      = match (rustLines ((extractFence raw).filter (fun c => !(c == '`')))).find?
            (fun l => !(rustTrim l).isEmpty) with
        | some l => (rustTrim l).filter (fun c => !(c == '\r'))
        | none => rustTrim ((extractFence raw).filter (fun c => !(c == '`'))) := rfl

/-- C9: for every input, the sanitizer output is a single line — it contains no
newline and no carriage return, and it carries no leading or trailing
whitespace (it is a fixed point of trimming). -/
theorem clean_command_single_trimmed_line (raw : List Char) :
    (clean_command raw).contains '\n' = false
  ∧ (clean_command raw).contains '\r' = false
  ∧ rustTrim (clean_command raw) = clean_command raw := by
  cases hf : (rustLines ((extractFence raw).filter (fun c => !(c == '`')))).find?
      (fun l => !(rustTrim l).isEmpty) with
  | none =>
    have hall : ∀ l ∈ rustLines ((extractFence raw).filter (fun c => !(c == '`'))),
        rustTrim l = [] := by
      intro l hl
      have hnp := List.find?_eq_none.mp hf l hl
      cases h2 : (rustTrim l).isEmpty with
      | true => exact List.isEmpty_iff.mp h2
      | false => exact absurd (by simp [h2]) hnp
    have htr : rustTrim ((extractFence raw).filter (fun c => !(c == '`'))) = [] :=
      rustTrim_eq_nil_of_all (all_ws_of_lines_trim_nil hall)
    have hcc : clean_command raw
        = rustTrim ((extractFence raw).filter (fun c => !(c == '`'))) := by
      rw [clean_command_eq, hf]
    rw [hcc, htr]
    exact ⟨rfl, rfl, rfl⟩
  | some l =>
    have hcc : clean_command raw = (rustTrim l).filter (fun c => !(c == '\r')) := by
      rw [clean_command_eq, hf]
    have hmem : l ∈ rustLines ((extractFence raw).filter (fun c => !(c == '`'))) :=
      List.mem_of_find?_eq_some hf
    have hpred : (!(rustTrim l).isEmpty) = true :=
      List.find?_some (p := fun l => !(rustTrim l).isEmpty) hf
    have hne : rustTrim l ≠ [] := by
      intro he
      rw [he] at hpred
      simp at hpred
    obtain ⟨c0, hc0⟩ : ∃ c0, (rustTrim l).head? = some c0 := by
      cases hm : rustTrim l with
      | nil => exact absurd hm hne
      | cons a r => exact ⟨a, rfl⟩
    obtain ⟨c1, hc1⟩ : ∃ c1, (rustTrim l).getLast? = some c1 := by
      cases hm : (rustTrim l).getLast? with
      | none => exact absurd (List.getLast?_eq_none_iff.mp hm) hne
      | some b => exact ⟨b, rfl⟩
    have hws0 := rustTrim_head_not_ws hc0
    have hws1 := rustTrim_getLast_not_ws hc1
    have hhead := filter_head?_of_head? (p := fun c => !(c == '\r')) hc0
      (not_cr_of_not_ws hws0)
    have hlast := filter_getLast?_of_getLast? (p := fun c => !(c == '\r')) hc1
      (not_cr_of_not_ws hws1)
    rw [hcc]
    refine ⟨?_, ?_, ?_⟩
    · simp only [List.contains, List.elem_eq_mem, decide_eq_false_iff_not]
      intro hmm
      have h2 := (List.mem_filter.mp hmm).1
      exact no_nl_mem_rustLines hmem (mem_of_mem_rustTrim h2)
    · simp only [List.contains, List.elem_eq_mem, decide_eq_false_iff_not]
      intro hmm
      have h2 := (List.mem_filter.mp hmm).2
      simp at h2
    · refine rustTrim_eq_self ?_ ?_
      · intro c h
        rw [hhead] at h
        injection h with h
        rw [← h]
        exact hws0
      · intro c h
        rw [hlast] at h
        injection h with h
        rw [← h]
        exact hws1

/-- The first-non-blank-line selector agrees with the find-based formulation,
with an empty fallback. -/
theorem selectLine_eq_find? (lines : List (List Char)) :
    selectLine lines
      = match lines.find? (fun l => !(rustTrim l).isEmpty) with
        | some l => (rustTrim l).filter (fun c => !(c == '\r'))
        | none => [] := by
  induction lines with
  | nil => rfl
  | cons l ls ih =>
    cases h : (rustTrim l).isEmpty with
    | true =>
      rw [List.find?_cons_of_neg ls (by simp [h])]
      simp only [selectLine, h, if_pos rfl]
      exact ih
    | false =>
      rw [List.find?_cons_of_pos ls (by simp [h])]
      simp [selectLine, h]

/-- C3 (amended): for every input with no fenced code block, the sanitizer
strips inline backticks and returns the first line whose trim is non-empty
(trimmed, carriage returns removed); if every line is blank it returns the
empty string.  No command-name allow-list and no prose-marker priority take
part in the selection. -/
theorem clean_command_first_nonempty_line (raw : List Char)
    (hnf : containsSub fencePat raw = false) :
    clean_command raw = clean_spec_nofence raw := by
  have hfind : findSub? fencePat raw = none := by
    unfold containsSub at hnf
    cases h : findSub? fencePat raw with
    | none => rfl
    | some v => rw [h] at hnf; simp at hnf
  have hext : extractFence raw = raw := by
    unfold extractFence
    rw [hfind]
  rw [clean_command_eq, hext]
  unfold clean_spec_nofence
  rw [selectLine_eq_find?]
  cases hf : (rustLines (raw.filter (fun c => !(c == '`')))).find?
      (fun l => !(rustTrim l).isEmpty) with
  | some l => rfl
  | none =>
    have hall : ∀ l ∈ rustLines (raw.filter (fun c => !(c == '`'))),
        rustTrim l = [] := by
      intro l hl
      have hnp := List.find?_eq_none.mp hf l hl
      cases h2 : (rustTrim l).isEmpty with
      | true => exact List.isEmpty_iff.mp h2
      | false => exact absurd (by simp [h2]) hnp
    exact rustTrim_eq_nil_of_all (all_ws_of_lines_trim_nil hall)

/-- Witness for C3: the theorem applied to the fence-free input
"Use this:\nls -la". -/
theorem clean_command_first_nonempty_line_witness :
    clean_command (toL "Use this:\nls -la")
      = clean_spec_nofence (toL "Use this:\nls -la") :=
  clean_command_first_nonempty_line (toL "Use this:\nls -la") (by decide)
